import Mathlib

/-!
Shallow embedding of `scripts/download_xml_files.py` (trueprep/fact-graph).

Python strings are modelled as `List Char` (`Str`), byte payloads as
`List Nat`.  Each definition translates one function or statement of the
script; stateful parts (network, filesystem) are modelled by an explicit
environment record and by returning the sequence of file writes.
-/

set_option autoImplicit false

abbrev Str := List Char

/-- Characters stripped by Python `str.strip()` (the ASCII whitespace
characters; non-ASCII Unicode whitespace is not modelled, no input in the
claims uses it). -/
def pyIsSpace (c : Char) : Bool :=
  c = ' ' || c = '\t' || c = '\n' || c = '\r' || c = '\x0b' || c = '\x0c'

/-- Python `s.strip()`: drop whitespace from both ends. -/
def pyStrip (s : Str) : Str :=
  ((s.dropWhile pyIsSpace).reverse.dropWhile pyIsSpace).reverse

/-- Fuel-indexed worker for Python `str.replace`: scan left to right; at a
match emit the replacement and skip over the matched text, otherwise copy one
character.  Each step consumes at least one character, so `s.length` fuel
suffices. -/
def pyReplaceF (needle repl : Str) : Nat → Str → Str
  | 0, s => s
  | _ + 1, [] => []
  | fuel + 1, c :: cs =>
    if needle ≠ [] ∧ needle.isPrefixOf (c :: cs) then
      repl ++ pyReplaceF needle repl fuel ((c :: cs).drop needle.length)
    else
      c :: pyReplaceF needle repl fuel cs

/-- Python `s.replace(needle, repl)` for a non-empty needle: replace every
left-to-right, non-overlapping occurrence.  (The empty-needle behaviour of
Python, interspersing `repl`, is not modelled; the script only replaces
`'/blob/'`.) -/
def pyReplace (needle repl s : Str) : Str :=
  pyReplaceF needle repl s.length s

/-- `convert_blob_to_raw_url` from the script:
`return blob_url.replace('/blob/', '/raw/')`. -/
def convert_blob_to_raw_url (blob_url : Str) : Str :=
  pyReplace "/blob/".toList "/raw/".toList blob_url

/-- All positions at which `needle` matches inside `s`. -/
def occurrencePositions (needle s : Str) : List Nat :=
  (List.range s.length).filter (fun i => needle.isPrefixOf (s.drop i))

/-- Positions of `'/blob/'` inside a URL. -/
def blobPositions (s : Str) : List Nat :=
  occurrencePositions "/blob/".toList s

/-- The string obtained from `s` by substituting `repl` for the occurrence of
`needle` at position `i` — the spec's "otherwise-identical string in which the
replacement is substituted exactly once, at the position of that
occurrence". -/
def substituteAt (needle repl s : Str) (i : Nat) : Str :=
  s.take i ++ repl ++ s.drop (i + needle.length)

/-- Characters allowed in a URL scheme after the first one
(`scheme_chars` of `urllib.parse`). -/
def isSchemeChar (c : Char) : Bool :=
  c.isAlpha || c.isDigit || c = '+' || c = '-' || c = '.'

/-- Scheme step of `urllib.parse.urlsplit`: if the text before the first `':'`
is non-empty, starts with a letter and consists of scheme characters, it is
the (lowercased) scheme and parsing continues after the `':'`; otherwise no
scheme is recognised.  (The removal of embedded tab and newline characters, a
security fix in recent CPython, is not modelled.) -/
def splitScheme (u : Str) : Str × Str :=
  let pre := u.takeWhile (fun c => c ≠ ':')
  let post := u.dropWhile (fun c => c ≠ ':')
  if post = [] then ([], u)
  else if (u.headD ' ').isAlpha ∧ pre.all isSchemeChar ∧ pre ≠ [] then
    (pre.map Char.toLower, post.drop 1)
  else ([], u)

/-- A character that ends the netloc component. -/
def netlocDelim (c : Char) : Bool :=
  c = '/' || c = '?' || c = '#'

/-- Netloc step of `urlsplit`: after the scheme, a leading `"//"` introduces
the netloc, which extends to the next `'/'`, `'?'` or `'#'` (that delimiter
stays in the remainder). -/
def splitNetloc (u : Str) : Str × Str :=
  if u.take 2 = ['/', '/'] then
    ((u.drop 2).takeWhile (fun c => !netlocDelim c),
      (u.drop 2).dropWhile (fun c => !netlocDelim c))
  else ([], u)

/-- `urlsplit`: scheme, then netloc, then the fragment is everything after
the first `'#'` and the query everything after the first `'?'` of what is
left; returns the scheme and the remaining path (still carrying any
parameters). -/
def urlsplitSchemeAndPath (url : Str) : Str × Str :=
  let sp := splitScheme url
  let np := splitNetloc sp.2
  let noFrag := np.2.takeWhile (fun c => c ≠ '#')
  let noQuery := noFrag.takeWhile (fun c => c ≠ '?')
  (sp.1, noQuery)

/-- Schemes for which `urlparse` splits parameters off the path
(`uses_params` of `urllib.parse`; note that it contains the empty scheme). -/
def usesParams : List Str :=
  ["", "ftp", "hdl", "prospero", "http", "imap", "https", "shttp", "rtsp",
    "rtsps", "rtspu", "sip", "sips", "mms", "sftp", "tel"].map String.toList

/-- `urllib.parse._splitparams`, path part: when the path contains a `'/'`,
the last segment is truncated at its first `';'` (if any); otherwise the
whole path is truncated at its first `';'`. -/
def splitparamsPath (p : Str) : Str :=
  if '/' ∈ p then
    let lastSeg := (p.reverse.takeWhile (fun c => c ≠ '/')).reverse
    let stem := p.take (p.length - lastSeg.length)
    if ';' ∈ lastSeg then stem ++ lastSeg.takeWhile (fun c => c ≠ ';') else p
  else p.takeWhile (fun c => c ≠ ';')

/-- `urllib.parse.urlparse(url).path`: the `urlsplit` path, with parameters
split off when the scheme uses them. -/
def urlparsePath (url : Str) : Str :=
  let sp := urlsplitSchemeAndPath url
  if sp.1 ∈ usesParams ∧ ';' ∈ sp.2 then splitparamsPath sp.2 else sp.2

/-- Python `s.split(c)` for a single-character separator. -/
def splitChar (c : Char) : Str → List Str
  | [] => [[]]
  | x :: xs =>
    if x = c then [] :: splitChar c xs
    else
      match splitChar c xs with
      | s :: ss => (x :: s) :: ss
      | [] => [[x]]

/-- `pathlib.PurePosixPath(p).name`: split on `'/'`, discard empty and `"."`
components (pathlib normalises those away; `".."` is kept), and take the last
remaining component, or `""` if none is left. -/
def pathName (p : Str) : Str :=
  ((splitChar '/' p).filter (fun seg => seg ≠ [] ∧ seg ≠ ['.'])).getLastD []

/-- `extract_filename` from the script: `parsed = urlparse(url)`,
`path = parsed.path`, `path = path.split('#')[0]`,
`filename = Path(path).name`. -/
def extract_filename (url : Str) : Str :=
  let path := urlparsePath url
  let path := path.takeWhile (fun c => c ≠ '#')
  pathName path

/-- The final segment of a path: the text after the last `'/'` (the whole
path when it has no `'/'`).  Used to state the spec's filename-derivation
claim. -/
def lastSegment (p : Str) : Str :=
  (splitChar '/' p).getLastD []

/-- An HTTP response: status code and body bytes (`requests.get` result). -/
structure Response where
  status : Nat
  content : List Nat
deriving DecidableEq

/-- The effectful environment of one batch run: whether
`output_dir.mkdir(parents=True, exist_ok=True)` succeeds, the result of
reading the links file (`none` models `open` raising: file missing or
unreadable), the network (`requests.get(raw_url, timeout=30)`, an `error`
models a raised `RequestException`), and whether opening/writing an output
file of a given name succeeds. -/
structure Env where
  mkdirOk : Bool
  linksLines : Option (List Str)
  fetch : Str → Except Str Response
  writeOk : Str → Bool

/-- The two errors that escape `download_xml_files` (no handler catches
them): `output_dir.mkdir` raising, and `open(links_file)` raising. -/
inductive RunError where
  | mkdirFailed
  | linksUnreadable
deriving DecidableEq

/-- Outcome of a normally-terminating run: the two counters printed in the
summary, the file writes performed (in order), and the URLs whose failure
was logged. -/
structure RunResult where
  successCount : Nat
  failCount : Nat
  writes : List (Str × List Nat)
  failedUrls : List Str
deriving DecidableEq

/-- One iteration of the URL-collection loop of `download_xml_files`:
`line = line.strip()`, `if line.startswith('- ')`, `url = line[2:]`,
`url = url.split('#')[0]`, `if url: urls.append(url)`. -/
def processLine (line : Str) : Option Str :=
  let l := pyStrip line
  if "- ".toList.isPrefixOf l then
    let url := (l.drop 2).takeWhile (fun c => c ≠ '#')
    if url ≠ [] then some url else none
  else none

/-- The URL list collected from the lines of `links.txt`. -/
def parseLinks (lines : List Str) : List Str :=
  lines.filterMap processLine

/-- `response.raise_for_status()` of `requests`: raise `HTTPError` exactly
for status codes in `[400, 600)`. -/
def raiseForStatus (r : Response) : Except Str Response :=
  if 400 ≤ r.status ∧ r.status < 600 then Except.error "HTTPError".toList
  else Except.ok r

/-- The body of the per-URL `try:` block: convert the URL, derive the
filename, download, check the status, write the payload.  Any raised error
surfaces as `Except.error`. -/
def processUrl (env : Env) (url : Str) : Except Str (Str × List Nat) :=
  let raw_url := convert_blob_to_raw_url url
  let filename := extract_filename raw_url
  match env.fetch raw_url with
  | Except.error e => Except.error e
  | Except.ok resp =>
    match raiseForStatus resp with
    | Except.error e => Except.error e
    | Except.ok resp2 =>
      if env.writeOk filename then Except.ok (filename, resp2.content)
      else Except.error "OSError".toList

/-- `true` iff the per-item step of `url` raised no error. -/
def exceptOk {ε α : Type} (e : Except ε α) : Bool :=
  match e with
  | Except.ok _ => true
  | Except.error _ => false

/-- One iteration of the download loop with its `except` handlers: a
successful item bumps `success_count` and records the write; a failed item
bumps `fail_count` and logs the offending URL. -/
def stepItem (env : Env) (acc : RunResult) (url : Str) : RunResult :=
  match processUrl env url with
  | Except.ok fc =>
    RunResult.mk (acc.successCount + 1) acc.failCount (acc.writes ++ [fc])
      acc.failedUrls
  | Except.error _ =>
    RunResult.mk acc.successCount (acc.failCount + 1) acc.writes
      (acc.failedUrls ++ [url])

/-- `download_xml_files` from the script: create the output directory, read
and parse `links.txt`, then fold the per-URL step over the parsed URLs.
`mkdir` and `open(links_file)` run before the loop and outside any handler,
so their failures abort the whole run. -/
def download_xml_files (env : Env) : Except RunError RunResult :=
  if env.mkdirOk then
    match env.linksLines with
    | none => Except.error RunError.linksUnreadable
    | some lines =>
      Except.ok ((parseLinks lines).foldl (stepItem env) (RunResult.mk 0 0 [] []))
  else Except.error RunError.mkdirFailed

/-- Apply a list of file writes to a filesystem (a map from filename to
contents): `open(path, 'wb')` followed by `write` truncates and overwrites,
so a later write to the same name wins. -/
def applyWrites (fs : Str → Option (List Nat)) (ws : List (Str × List Nat)) :
    Str → Option (List Nat) :=
  ws.foldl (fun f nc => fun n => if n = nc.1 then some nc.2 else f n) fs

/-- The writes performed by one batch run (none when the run aborts). -/
def runWrites (env : Env) : List (Str × List Nat) :=
  match download_xml_files env with
  | Except.ok r => r.writes
  | Except.error _ => []

/-- A small links file used by the closed witness theorems. -/
def linesA : List Str :=
  ["- http://h/a.xml".toList, "- http://h/b.xml".toList]

/-- Environment where the first URL downloads fine and the second hits a
network error. -/
def envA : Env :=
  Env.mk true (some linesA)
    (fun u =>
      if u = "http://h/a.xml".toList then Except.ok (Response.mk 200 [1])
      else Except.error "timeout".toList)
    (fun _ => true)

/-- Environment where creating the output directory fails although the links
file is present and readable. -/
def envMkdirFail : Env :=
  Env.mk false (some linesA) (fun _ => Except.error "timeout".toList)
    (fun _ => true)

/-- Environment where the links file is missing or unreadable. -/
def envLinksMissing : Env :=
  Env.mk true none (fun _ => Except.error "timeout".toList) (fun _ => true)

/-- Environment where the download succeeds but writing the output file
fails. -/
def envWriteFail : Env :=
  Env.mk true (some ["- http://h/a.xml".toList])
    (fun _ => Except.ok (Response.mk 200 [1])) (fun _ => false)

-- ### Lemmas about `pyReplace`

theorem isPrefixOf_nil_eq {needle : Str} (h : needle ≠ []) :
    needle.isPrefixOf ([] : Str) = false := by
  cases needle with
  | nil => exact absurd rfl h
  | cons a as => rfl

theorem occurrencePositions_nil (needle : Str) :
    occurrencePositions needle [] = [] := by
  simp [occurrencePositions]

theorem occurrencePositions_cons (needle : Str) (c : Char) (cs : Str) :
    occurrencePositions needle (c :: cs) =
      (if needle.isPrefixOf (c :: cs) then [0] else []) ++
        (occurrencePositions needle cs).map (· + 1) := by
  unfold occurrencePositions
  rw [List.length_cons, List.range_succ_eq_map, List.filter_cons]
  rw [List.filter_map]
  have hcong :
      List.filter ((fun i => needle.isPrefixOf ((c :: cs).drop i)) ∘ Nat.succ)
          (List.range cs.length) =
        List.filter (fun i => needle.isPrefixOf (cs.drop i))
          (List.range cs.length) := by
    apply List.filter_congr
    intro i _
    simp [Function.comp, List.drop_succ_cons]
  rw [hcong]
  simp only [List.drop_zero, Nat.succ_eq_add_one]
  split <;> simp

theorem occurrencePositions_eq_nil_iff {needle : Str} (hne : needle ≠ [])
    (s : Str) :
    occurrencePositions needle s = [] ↔
      ∀ i, needle.isPrefixOf (s.drop i) = false := by
  constructor
  · intro h i
    by_cases hi : i < s.length
    · by_contra hmem
      have : i ∈ occurrencePositions needle s := by
        unfold occurrencePositions
        refine List.mem_filter.mpr ⟨List.mem_range.mpr hi, ?_⟩
        simpa using hmem
      simp [h] at this
    · have : s.drop i = [] := List.drop_eq_nil_of_le (Nat.le_of_not_lt hi)
      rw [this, isPrefixOf_nil_eq hne]
  · intro h
    unfold occurrencePositions
    refine List.filter_eq_nil_iff.mpr ?_
    intro i _
    simp [h i]

theorem pyReplaceF_succ_cons (needle repl : Str) (n : Nat) (c : Char)
    (cs : Str) :
    pyReplaceF needle repl (n + 1) (c :: cs) =
      if needle ≠ [] ∧ needle.isPrefixOf (c :: cs) then
        repl ++ pyReplaceF needle repl n ((c :: cs).drop needle.length)
      else
        c :: pyReplaceF needle repl n cs := rfl

theorem pyReplaceF_no_match {needle repl : Str} :
    ∀ (fuel : Nat) (s : Str),
      (∀ i, needle.isPrefixOf (s.drop i) = false) →
      pyReplaceF needle repl fuel s = s := by
  intro fuel
  induction fuel with
  | zero => intro s _; rfl
  | succ n ih =>
    intro s h
    cases s with
    | nil => rfl
    | cons c cs =>
      have h0 : needle.isPrefixOf (c :: cs) = false := by simpa using h 0
      have hrest : ∀ i, needle.isPrefixOf (cs.drop i) = false := by
        intro i; simpa [List.drop_succ_cons] using h (i + 1)
      rw [pyReplaceF_succ_cons, if_neg (by simp [h0]), ih cs hrest]

theorem map_add_one_eq_singleton {l : List Nat} {i : Nat}
    (h : l.map (· + 1) = [i]) : ∃ j, l = [j] ∧ i = j + 1 := by
  cases l with
  | nil => simp at h
  | cons a t =>
    cases t with
    | nil =>
      refine ⟨a, rfl, ?_⟩
      simpa using h.symm
    | cons b u => simp at h

theorem pyReplaceF_single_occurrence {needle repl : Str} (hne : needle ≠ []) :
    ∀ (fuel : Nat) (s : Str) (i : Nat),
      s.length ≤ fuel →
      occurrencePositions needle s = [i] →
      pyReplaceF needle repl fuel s = substituteAt needle repl s i := by
  intro fuel
  induction fuel with
  | zero =>
    intro s i hlen hpos
    have hs : s = [] := List.eq_nil_of_length_eq_zero (Nat.le_zero.mp hlen)
    rw [hs, occurrencePositions_nil] at hpos
    exact absurd hpos (by simp)
  | succ n ih =>
    intro s i hlen hpos
    cases s with
    | nil =>
      rw [occurrencePositions_nil] at hpos
      exact absurd hpos (by simp)
    | cons c cs =>
      rw [occurrencePositions_cons] at hpos
      cases hmatch : needle.isPrefixOf (c :: cs) with
      | true =>
        rw [hmatch] at hpos
        simp at hpos
        obtain ⟨hi0x, htailx⟩ := hpos
        have hi0 : i = 0 := by omega
        have htail : occurrencePositions needle cs = [] := by
          cases hp : occurrencePositions needle cs with
          | nil => rfl
          | cons a t => rw [hp] at htailx; simp at htailx
        have hnomatch : ∀ j, needle.isPrefixOf (cs.drop j) = false :=
          (occurrencePositions_eq_nil_iff hne cs).mp htail
        have hdropmatch :
            ∀ j, needle.isPrefixOf (((c :: cs).drop needle.length).drop j) = false := by
          intro j
          rw [List.drop_drop]
          obtain ⟨m, hm⟩ : ∃ m, needle.length + j = m + 1 := by
            refine ⟨needle.length + j - 1, ?_⟩
            have : 1 ≤ needle.length := by
              cases needle with
              | nil => exact absurd rfl hne
              | cons a as => simp
            omega
          rw [hm, List.drop_succ_cons]
          exact hnomatch m
        have hfuel : ((c :: cs).drop needle.length).length ≤ n := by
          rw [List.length_drop]
          have h1 : 1 ≤ needle.length := by
            cases needle with
            | nil => exact absurd rfl hne
            | cons a as => simp
          have := hlen
          simp only [List.length_cons] at this
          omega
        rw [hi0, pyReplaceF_succ_cons, if_pos (And.intro hne hmatch),
          pyReplaceF_no_match n _ hdropmatch]
        simp [substituteAt]
      | false =>
        rw [hmatch] at hpos
        simp only [Bool.false_eq_true, if_false, List.nil_append] at hpos
        obtain ⟨j, hj, hij⟩ := map_add_one_eq_singleton hpos
        have hfuel : cs.length ≤ n := by
          simp only [List.length_cons] at hlen; omega
        have hIH := ih cs j hfuel hj
        rw [pyReplaceF_succ_cons, if_neg (by simp [hmatch]), hIH, hij]
        simp [substituteAt, List.take_succ_cons, List.drop_succ_cons,
          Nat.add_right_comm]

theorem pyReplace_single_occurrence {needle repl : Str} (hne : needle ≠ [])
    (s : Str) (i : Nat) (hpos : occurrencePositions needle s = [i]) :
    pyReplace needle repl s = substituteAt needle repl s i :=
  pyReplaceF_single_occurrence hne s.length s i (Nat.le_refl _) hpos

-- ### Claim theorems for the URL transformer

/-- C1 (corrected): the claim as frozen — for every URL containing
`'/blob/'`, the result is the otherwise-identical string with `'/raw/'`
substituted exactly once, at the position of an occurrence — fails when
`'/blob/'` occurs more than once: `str.replace` replaces every occurrence.
At `"/blob/x/blob/y"` the output `"/raw/x/raw/y"` matches no
single-substitution result. -/
theorem claim_C1_counterexample :
    blobPositions "/blob/x/blob/y".toList ≠ [] ∧
    ¬ ∃ i ∈ blobPositions "/blob/x/blob/y".toList,
        convert_blob_to_raw_url "/blob/x/blob/y".toList =
          substituteAt "/blob/".toList "/raw/".toList "/blob/x/blob/y".toList i := by
  decide

/-- C1 (amended): for every URL string in which `'/blob/'` occurs at exactly
one position, `convert_blob_to_raw_url` returns the otherwise-identical
string in which `'/raw/'` is substituted for `'/blob/'` exactly once, at that
position. -/
theorem claim_C1 (s : Str) (i : Nat) (h : blobPositions s = [i]) :
    convert_blob_to_raw_url s =
      substituteAt "/blob/".toList "/raw/".toList s i := by
  unfold blobPositions at h
  unfold convert_blob_to_raw_url
  exact pyReplace_single_occurrence (by decide) s i h

/-- Witness for C1 at a typical GitHub blob URL. -/
theorem claim_C1_witness :
    blobPositions "https://github.com/u/r/blob/main/f.xml".toList = [22] ∧
    convert_blob_to_raw_url "https://github.com/u/r/blob/main/f.xml".toList =
      substituteAt "/blob/".toList "/raw/".toList
        "https://github.com/u/r/blob/main/f.xml".toList 22 :=
  ⟨by decide, claim_C1 _ 22 (by decide)⟩

/-- C5 (confirmed): a URL with no occurrence of `'/blob/'` is returned
unchanged. -/
theorem claim_C5 (s : Str) (h : blobPositions s = []) :
    convert_blob_to_raw_url s = s := by
  unfold blobPositions at h
  have hall := (occurrencePositions_eq_nil_iff (by decide) s).mp h
  unfold convert_blob_to_raw_url pyReplace
  exact pyReplaceF_no_match s.length s hall

/-- Witness for C5 at a raw URL that contains no `'/blob/'`. -/
theorem claim_C5_witness :
    blobPositions "https://example.com/f.xml".toList = [] ∧
    convert_blob_to_raw_url "https://example.com/f.xml".toList =
      "https://example.com/f.xml".toList :=
  ⟨by decide, claim_C5 _ (by decide)⟩

-- ### Lemmas about the batch run

theorem countP_bool_split {α : Type} (p : α → Bool) (l : List α) :
    l.countP p + l.countP (fun a => !p a) = l.length := by
  induction l with
  | nil => rfl
  | cons a t ih =>
    cases h : p a <;> simp [List.countP_cons, h] <;> omega

theorem foldl_stepItem (env : Env) (urls : List Str) : ∀ acc : RunResult,
    urls.foldl (stepItem env) acc =
      RunResult.mk
        (acc.successCount + urls.countP (fun u => exceptOk (processUrl env u)))
        (acc.failCount + urls.countP (fun u => !exceptOk (processUrl env u)))
        (acc.writes ++ urls.filterMap (fun u => (processUrl env u).toOption))
        (acc.failedUrls ++ urls.filter (fun u => !exceptOk (processUrl env u))) := by
  induction urls with
  | nil =>
    intro acc
    simp
  | cons u us ih =>
    intro acc
    rw [List.foldl_cons, ih]
    cases h : processUrl env u with
    | ok fc =>
      simp only [stepItem, h]
      rw [RunResult.mk.injEq]
      refine ⟨?_, ?_, ?_, ?_⟩
      · simp [List.countP_cons, h, exceptOk]; omega
      · simp [List.countP_cons, h, exceptOk]
      · simp [List.filterMap_cons, h, Except.toOption]
      · simp [List.filter_cons, h, exceptOk]
    | error e =>
      simp only [stepItem, h]
      rw [RunResult.mk.injEq]
      refine ⟨?_, ?_, ?_, ?_⟩
      · simp [List.countP_cons, h, exceptOk]
      · simp [List.countP_cons, h, exceptOk]; omega
      · simp [List.filterMap_cons, h, Except.toOption]
      · simp [List.filter_cons, h, exceptOk]

theorem applyWrites_cons (fs : Str → Option (List Nat)) (w : Str × List Nat)
    (ws : List (Str × List Nat)) :
    applyWrites fs (w :: ws) =
      applyWrites (fun n => if n = w.1 then some w.2 else fs n) ws := rfl

theorem applyWrites_unwritten :
    ∀ (ws : List (Str × List Nat)) (fs : Str → Option (List Nat)) (n : Str),
      n ∉ ws.map Prod.fst → applyWrites fs ws n = fs n := by
  intro ws
  induction ws with
  | nil => intro fs n _; rfl
  | cons w ws ih =>
    intro fs n h
    rw [applyWrites_cons]
    have hn : n ∉ ws.map Prod.fst := by
      intro hmem
      exact h (List.mem_cons_of_mem _ hmem)
    have hne : n ≠ w.1 := by
      intro he
      exact h (by rw [List.map_cons, he]; exact List.mem_cons_self _ _)
    rw [ih _ n hn]
    simp [hne]

theorem applyWrites_congr :
    ∀ (ws : List (Str × List Nat)) (fs fs' : Str → Option (List Nat)),
      (∀ n, n ∉ ws.map Prod.fst → fs n = fs' n) →
      ∀ n, applyWrites fs ws n = applyWrites fs' ws n := by
  intro ws
  induction ws with
  | nil =>
    intro fs fs' h n
    exact h n (by simp)
  | cons w ws ih =>
    intro fs fs' h n
    rw [applyWrites_cons, applyWrites_cons]
    apply ih
    intro m hm
    by_cases hmw : m = w.1
    · simp [hmw]
    · simp only [if_neg hmw]
      apply h
      simp only [List.map_cons, List.mem_cons]
      intro hc
      rcases hc with hc | hc
      · exact hmw hc
      · exact hm hc

theorem applyWrites_idempotent (ws : List (Str × List Nat))
    (fs : Str → Option (List Nat)) (n : Str) :
    applyWrites (applyWrites fs ws) ws n = applyWrites fs ws n :=
  applyWrites_congr ws _ _ (fun m hm => applyWrites_unwritten ws fs m hm) n

-- ### Claim theorems for the reader and the batch run

/-- C2 (confirmed): a line whose stripped form starts with the marker
`"- "` yields the remainder after the marker, truncated at the first `'#'`,
and yields nothing when that remainder is empty; a line without the marker
yields nothing. -/
theorem claim_C2 (line : Str) :
    ("- ".toList.isPrefixOf (pyStrip line) = true →
      processLine line =
        (if ((pyStrip line).drop 2).takeWhile (fun c => c ≠ '#') = [] then
          none
         else some (((pyStrip line).drop 2).takeWhile (fun c => c ≠ '#')))) ∧
    ("- ".toList.isPrefixOf (pyStrip line) = false →
      processLine line = none) := by
  have hbody : processLine line =
      (if "- ".toList.isPrefixOf (pyStrip line) then
        (if ((pyStrip line).drop 2).takeWhile (fun c => c ≠ '#') ≠ [] then
          some (((pyStrip line).drop 2).takeWhile (fun c => c ≠ '#'))
         else none)
       else none) := rfl
  constructor
  · intro h
    rw [hbody, if_pos h]
    by_cases hr : ((pyStrip line).drop 2).takeWhile (fun c => c ≠ '#') = []
    · rw [if_neg (not_not_intro hr), if_pos hr]
    · rw [if_pos hr, if_neg hr]
  · intro h
    rw [hbody, if_neg (by rw [h]; exact Bool.false_ne_true)]

/-- Witness for C2 on a realistic line with marker, fragment and padding. -/
theorem claim_C2_witness :
    processLine "  - https://a/b.xml#L4".toList =
      (if ((pyStrip "  - https://a/b.xml#L4".toList).drop 2).takeWhile
            (fun c => c ≠ '#') = [] then
        none
       else some (((pyStrip "  - https://a/b.xml#L4".toList).drop 2).takeWhile
            (fun c => c ≠ '#'))) :=
  (claim_C2 _).1 (by decide)

/-- C10 (confirmed): every URL the reader yields is non-empty and contains
no `'#'` character. -/
theorem claim_C10 (lines : List Str) (url : Str)
    (h : url ∈ parseLinks lines) : url ≠ [] ∧ '#' ∉ url := by
  unfold parseLinks at h
  obtain ⟨line, _, hsome⟩ := List.mem_filterMap.mp h
  have hbody : processLine line =
      (if "- ".toList.isPrefixOf (pyStrip line) then
        (if ((pyStrip line).drop 2).takeWhile (fun c => c ≠ '#') ≠ [] then
          some (((pyStrip line).drop 2).takeWhile (fun c => c ≠ '#'))
         else none)
       else none) := rfl
  rw [hbody] at hsome
  split at hsome
  · split at hsome
    case isTrue hne =>
      injection hsome with he
      subst he
      refine ⟨hne, ?_⟩
      intro hmem
      have := List.mem_takeWhile_imp hmem
      simp at this
    case isFalse hne => exact absurd hsome (by simp)
  · exact absurd hsome (by simp)

/-- Witness for C10 on a one-line links file. -/
theorem claim_C10_witness : "a".toList ≠ [] ∧ '#' ∉ "a".toList :=
  claim_C10 ["- a#1".toList] "a".toList (by decide)

/-- C3 (corrected): the frozen claim says only the links-file configuration
error can terminate the run, but `output_dir.mkdir` runs before the links
file is opened and outside every handler: in `envMkdirFail` the links file is
present and readable, yet the run aborts with the directory-creation
error. -/
theorem claim_C3_counterexample :
    download_xml_files envMkdirFail = Except.error RunError.mkdirFailed ∧
    envMkdirFail.linksLines ≠ none ∧
    RunError.mkdirFailed ≠ RunError.linksUnreadable := by
  refine ⟨rfl, by decide, by decide⟩

/-- C3 (amended): per-item errors never abort the batch — the run terminates
normally exactly when the output directory could be created and the links
file was readable, whatever the network and file writes do; when the links
file is missing or unreadable (and `mkdir` succeeded) the run aborts with
that configuration error, before any download is attempted. -/
theorem claim_C3 (env : Env) :
    ((∃ r, download_xml_files env = Except.ok r) ↔
      (env.mkdirOk = true ∧ env.linksLines ≠ none)) ∧
    (env.mkdirOk = true → env.linksLines = none →
      download_xml_files env = Except.error RunError.linksUnreadable) := by
  constructor
  · constructor
    · rintro ⟨r, hr⟩
      unfold download_xml_files at hr
      by_cases hm : env.mkdirOk = true
      · refine ⟨hm, ?_⟩
        rw [if_pos hm] at hr
        cases hl : env.linksLines with
        | none => rw [hl] at hr; exact absurd hr (by simp)
        | some lines => simp [hl]
      · rw [if_neg hm] at hr
        exact absurd hr (by simp)
    · rintro ⟨hm, hl⟩
      unfold download_xml_files
      rw [if_pos hm]
      cases hl' : env.linksLines with
      | none => exact absurd hl' hl
      | some lines => exact ⟨_, rfl⟩
  · intro hm hl
    unfold download_xml_files
    rw [if_pos hm, hl]

/-- Witness for C3: a missing links file aborts the run with the
configuration error. -/
theorem claim_C3_witness :
    download_xml_files envLinksMissing =
      Except.error RunError.linksUnreadable :=
  (claim_C3 envLinksMissing).2 rfl rfl

/-- C9 (confirmed): on every normally-terminating run the success counter
counts exactly the URLs whose per-item step succeeded, the failure counter
counts exactly those whose step raised, and the two add up to the number of
URLs the reader yielded. -/
theorem claim_C9 (env : Env) (lines : List Str) (r : RunResult)
    (hmk : env.mkdirOk = true) (hlines : env.linksLines = some lines)
    (hrun : download_xml_files env = Except.ok r) :
    r.successCount =
      (parseLinks lines).countP (fun u => exceptOk (processUrl env u)) ∧
    r.failCount =
      (parseLinks lines).countP (fun u => !exceptOk (processUrl env u)) ∧
    r.successCount + r.failCount = (parseLinks lines).length := by
  unfold download_xml_files at hrun
  rw [if_pos hmk, hlines] at hrun
  injection hrun with hr
  subst hr
  rw [foldl_stepItem]
  refine ⟨by simp, by simp, ?_⟩
  simp only [Nat.zero_add]
  exact countP_bool_split _ _

/-- Witness for C9: in `envA` one URL succeeds, one fails, and `1 + 1`
equals the two parsed URLs. -/
theorem claim_C9_witness :
    (RunResult.mk 1 1 [("a.xml".toList, [1])] ["http://h/b.xml".toList]).successCount =
      (parseLinks linesA).countP (fun u => exceptOk (processUrl envA u)) ∧
    (RunResult.mk 1 1 [("a.xml".toList, [1])] ["http://h/b.xml".toList]).failCount =
      (parseLinks linesA).countP (fun u => !exceptOk (processUrl envA u)) ∧
    (RunResult.mk 1 1 [("a.xml".toList, [1])] ["http://h/b.xml".toList]).successCount +
        (RunResult.mk 1 1 [("a.xml".toList, [1])] ["http://h/b.xml".toList]).failCount =
      (parseLinks linesA).length :=
  claim_C9 envA linesA _ rfl rfl rfl

/-- C6 (confirmed): when the fetch of the converted URL returns a response,
an error status (4xx/5xx, what `raise_for_status` raises for) makes the item
fail, while a success status (< 400) with a writable target writes the full
payload under the derived filename; applying that write to any filesystem
overwrites whatever was stored under that name. -/
theorem claim_C6 (env : Env) (url : Str) (resp : Response)
    (hfetch : env.fetch (convert_blob_to_raw_url url) = Except.ok resp) :
    (400 ≤ resp.status ∧ resp.status < 600 →
      ∃ e, processUrl env url = Except.error e) ∧
    (resp.status < 400 →
      env.writeOk (extract_filename (convert_blob_to_raw_url url)) = true →
      processUrl env url =
        Except.ok (extract_filename (convert_blob_to_raw_url url),
          resp.content) ∧
      ∀ fs,
        applyWrites fs
            [(extract_filename (convert_blob_to_raw_url url), resp.content)]
            (extract_filename (convert_blob_to_raw_url url)) =
          some resp.content) := by
  have hbody : processUrl env url =
      (match env.fetch (convert_blob_to_raw_url url) with
       | Except.error e => Except.error e
       | Except.ok resp =>
         match raiseForStatus resp with
         | Except.error e => Except.error e
         | Except.ok resp2 =>
           if env.writeOk (extract_filename (convert_blob_to_raw_url url)) then
             Except.ok (extract_filename (convert_blob_to_raw_url url),
               resp2.content)
           else Except.error "OSError".toList) := rfl
  constructor
  · intro hstat
    have h2 : raiseForStatus resp = Except.error "HTTPError".toList := by
      unfold raiseForStatus
      rw [if_pos hstat]
    simp only [hbody, hfetch, h2]
    exact ⟨_, rfl⟩
  · intro hlt hw
    have h2 : raiseForStatus resp = Except.ok resp := by
      unfold raiseForStatus
      rw [if_neg (by omega)]
    constructor
    · simp only [hbody, hfetch, h2]
      rw [if_pos hw]
    · intro fs
      simp [applyWrites]

/-- Witness for C6: a 200 response in `envA` is written in full. -/
theorem claim_C6_witness :
    processUrl envA "http://h/a.xml".toList =
      Except.ok
        (extract_filename (convert_blob_to_raw_url "http://h/a.xml".toList),
          [1]) :=
  ((claim_C6 envA "http://h/a.xml".toList (Response.mk 200 [1])
      rfl).2 (by decide) rfl).1

/-- C7 (corrected): the frozen claim says a failure to create the output
directory is caught at the per-item boundary, logged, counted and skipped
like a network error; in fact `output_dir.mkdir` runs before the loop and
outside every handler, so its failure aborts the whole run. -/
theorem claim_C7_counterexample :
    download_xml_files envMkdirFail = Except.error RunError.mkdirFailed := rfl

/-- C7 (amended): a failure to write an individual output file is caught at
the per-item boundary like a network error — the run still terminates
normally, the offending URL is logged as failed, and every URL is counted
exactly once; a failure to create the output directory, by contrast, is
uncaught and terminates the run. -/
theorem claim_C7 (env : Env) (lines : List Str) (url : Str) (resp : Response)
    (hmk : env.mkdirOk = true) (hlines : env.linksLines = some lines)
    (hmem : url ∈ parseLinks lines)
    (hfetch : env.fetch (convert_blob_to_raw_url url) = Except.ok resp)
    (hstat : resp.status < 400)
    (hw : env.writeOk (extract_filename (convert_blob_to_raw_url url)) = false) :
    ∃ r, download_xml_files env = Except.ok r ∧ url ∈ r.failedUrls ∧
      r.successCount + r.failCount = (parseLinks lines).length := by
  have hbody : processUrl env url =
      (match env.fetch (convert_blob_to_raw_url url) with
       | Except.error e => Except.error e
       | Except.ok resp =>
         match raiseForStatus resp with
         | Except.error e => Except.error e
         | Except.ok resp2 =>
           if env.writeOk (extract_filename (convert_blob_to_raw_url url)) then
             Except.ok (extract_filename (convert_blob_to_raw_url url),
               resp2.content)
           else Except.error "OSError".toList) := rfl
  have h2 : raiseForStatus resp = Except.ok resp := by
    unfold raiseForStatus
    rw [if_neg (by omega)]
  have hfail : exceptOk (processUrl env url) = false := by
    simp only [hbody, hfetch, h2]
    rw [if_neg (by rw [hw]; exact Bool.false_ne_true)]
    rfl
  unfold download_xml_files
  rw [if_pos hmk, hlines]
  refine ⟨_, rfl, ?_, ?_⟩
  · rw [foldl_stepItem]
    simp only [List.nil_append]
    exact List.mem_filter.mpr ⟨hmem, by rw [hfail]; rfl⟩
  · rw [foldl_stepItem]
    simp only [Nat.zero_add]
    exact countP_bool_split _ _

/-- Witness for C7: in `envWriteFail` the download succeeds but the file
write fails; the run still ends normally with the URL logged as failed. -/
theorem claim_C7_witness :
    ∃ r, download_xml_files envWriteFail = Except.ok r ∧
      "http://h/a.xml".toList ∈ r.failedUrls ∧
      r.successCount + r.failCount =
        (parseLinks ["- http://h/a.xml".toList]).length :=
  claim_C7 envWriteFail ["- http://h/a.xml".toList] "http://h/a.xml".toList
    (Response.mk 200 [1]) rfl rfl (by decide) rfl (by decide) rfl

/-- C8 (confirmed): with a fixed environment (same links file, same remote
content, same filesystem behaviour) the writes of a run are a fixed list,
and applying them a second time leaves every file exactly as after the first
application: re-running overwrites each file with the same bytes and creates
nothing new. -/
theorem claim_C8 (env : Env) (fs : Str → Option (List Nat)) (n : Str) :
    applyWrites (applyWrites fs (runWrites env)) (runWrites env) n =
      applyWrites fs (runWrites env) n :=
  applyWrites_idempotent (runWrites env) fs n

-- ### Lemmas about url parsing and `extract_filename`

theorem takeWhile_append_all {α : Type} (p : α → Bool) :
    ∀ (l₁ l₂ : List α), l₁.all p = true →
      (l₁ ++ l₂).takeWhile p = l₁ ++ l₂.takeWhile p := by
  intro l₁
  induction l₁ with
  | nil => intro l₂ _; rfl
  | cons a t ih =>
    intro l₂ h
    simp only [List.all_cons, Bool.and_eq_true] at h
    simp [List.takeWhile_cons, h.1, ih l₂ h.2]

theorem dropWhile_append_all {α : Type} (p : α → Bool) :
    ∀ (l₁ l₂ : List α), l₁.all p = true →
      (l₁ ++ l₂).dropWhile p = l₂.dropWhile p := by
  intro l₁
  induction l₁ with
  | nil => intro l₂ _; rfl
  | cons a t ih =>
    intro l₂ h
    simp only [List.all_cons, Bool.and_eq_true] at h
    simp [List.dropWhile_cons, h.1, ih l₂ h.2]

theorem takeWhile_append_not_all {α : Type} (p : α → Bool) :
    ∀ (l₁ l₂ : List α), l₁.all p = false →
      (l₁ ++ l₂).takeWhile p = l₁.takeWhile p := by
  intro l₁
  induction l₁ with
  | nil => intro l₂ h; simp at h
  | cons a t ih =>
    intro l₂ h
    cases hpa : p a with
    | false => simp [List.takeWhile_cons, hpa]
    | true =>
      simp only [List.all_cons, hpa, Bool.true_and] at h
      simp [List.takeWhile_cons, hpa, ih l₂ h]

theorem dropWhile_append_not_all {α : Type} (p : α → Bool) :
    ∀ (l₁ l₂ : List α), l₁.all p = false →
      (l₁ ++ l₂).dropWhile p = l₁.dropWhile p ++ l₂ := by
  intro l₁
  induction l₁ with
  | nil => intro l₂ h; simp at h
  | cons a t ih =>
    intro l₂ h
    cases hpa : p a with
    | false => simp [List.dropWhile_cons, hpa]
    | true =>
      simp only [List.all_cons, hpa, Bool.true_and] at h
      simp [List.dropWhile_cons, hpa, ih l₂ h]

theorem takeWhile_append_cons_stop {α : Type} (p : α → Bool) (l : List α)
    (a : α) (x : List α) (ha : p a = false) :
    (l ++ a :: x).takeWhile p = l.takeWhile p := by
  cases hall : l.all p with
  | true =>
    rw [takeWhile_append_all _ _ _ hall]
    simp [List.takeWhile_cons, ha,
      List.takeWhile_eq_self_iff.mpr (List.all_eq_true.mp hall)]
  | false => exact takeWhile_append_not_all _ _ _ hall

theorem dropWhile_append_cons_stop {α : Type} (p : α → Bool) (l : List α)
    (a : α) (x : List α) (ha : p a = false) :
    (l ++ a :: x).dropWhile p = l.dropWhile p ++ a :: x := by
  cases hall : l.all p with
  | true =>
    rw [dropWhile_append_all _ _ _ hall,
      List.dropWhile_eq_nil_iff.mpr (List.all_eq_true.mp hall)]
    simp [List.dropWhile_cons, ha]
  | false => exact dropWhile_append_not_all _ _ _ hall

theorem headD_append_of_ne_nil {α : Type} (l x : List α) (d : α)
    (h : l ≠ []) : (l ++ x).headD d = l.headD d := by
  cases l with
  | nil => exact absurd rfl h
  | cons a t => rfl

theorem drop_one_append_of_ne_nil {α : Type} (l x : List α) (h : l ≠ []) :
    (l ++ x).drop 1 = l.drop 1 ++ x := by
  cases l with
  | nil => exact absurd rfl h
  | cons a t => simp

theorem splitScheme_append_hash (u frag : Str) :
    splitScheme (u ++ '#' :: frag) =
      ((splitScheme u).1, (splitScheme u).2 ++ '#' :: frag) := by
  by_cases hmem : ':' ∈ u
  · have hall : u.all (fun c => decide (c ≠ ':')) = false := by
      cases h : u.all (fun c => decide (c ≠ ':')) with
      | false => rfl
      | true =>
        have := List.all_eq_true.mp h ':' hmem
        simp at this
    have hne : u.dropWhile (fun c => decide (c ≠ ':')) ≠ [] := by
      intro h0
      have := List.all_eq_true.mpr (List.dropWhile_eq_nil_iff.mp h0)
      rw [hall] at this
      exact Bool.false_ne_true this
    have hu_ne : u ≠ [] := List.ne_nil_of_mem hmem
    simp only [splitScheme]
    rw [takeWhile_append_not_all _ _ _ hall,
      dropWhile_append_not_all _ _ _ hall,
      headD_append_of_ne_nil u ('#' :: frag) ' ' hu_ne]
    rw [if_neg (by simp [hne]), if_neg hne]
    by_cases hc : (u.headD ' ').isAlpha ∧
        (u.takeWhile (fun c => decide (c ≠ ':'))).all isSchemeChar ∧
        u.takeWhile (fun c => decide (c ≠ ':')) ≠ []
    · rw [if_pos hc, if_pos hc, drop_one_append_of_ne_nil _ _ hne]
    · rw [if_neg hc, if_neg hc]
  · have hall : u.all (fun c => decide (c ≠ ':')) = true :=
      List.all_eq_true.mpr (fun x hx => by
        have hxne : x ≠ ':' := fun he => hmem (he ▸ hx)
        simpa using hxne)
    have hpost : u.dropWhile (fun c => decide (c ≠ ':')) = [] :=
      List.dropWhile_eq_nil_iff.mpr (List.all_eq_true.mp hall)
    have hsu : splitScheme u = ([], u) := by
      simp only [splitScheme]
      rw [hpost, if_pos rfl]
    rw [hsu]
    simp only [splitScheme]
    rw [takeWhile_append_all _ _ _ hall, dropWhile_append_all _ _ _ hall]
    simp only [List.takeWhile_cons, List.dropWhile_cons]
    by_cases hf : ':' ∈ frag
    · have hfne : frag.dropWhile (fun c => decide (c ≠ ':')) ≠ [] := by
        intro h0
        have := List.dropWhile_eq_nil_iff.mp h0 ':' hf
        simp at this
      rw [if_neg (by simp [hf])]
      have hc : ¬ (((u ++ '#' :: frag).headD ' ').isAlpha ∧
          (u ++ ('#' :: frag).takeWhile (fun c => decide (c ≠ ':'))).all
              isSchemeChar ∧
          u ++ ('#' :: frag).takeWhile (fun c => decide (c ≠ ':')) ≠ []) := by
        rintro ⟨-, hsch, -⟩
        have hhash : '#' ∈ u ++ ('#' :: frag).takeWhile (fun c => decide (c ≠ ':')) := by
          refine List.mem_append.mpr (Or.inr ?_)
          simp [List.takeWhile_cons]
        have := List.all_eq_true.mp hsch '#' hhash
        simp [isSchemeChar] at this
      rw [if_neg (by simpa [List.takeWhile_cons, List.dropWhile_cons] using hc)]
    · have hfall : frag.all (fun c => decide (c ≠ ':')) = true :=
        List.all_eq_true.mpr (fun x hx => by
          have hxne : x ≠ ':' := fun he => hf (he ▸ hx)
          simpa using hxne)
      have hfpost : frag.dropWhile (fun c => decide (c ≠ ':')) = [] :=
        List.dropWhile_eq_nil_iff.mpr (List.all_eq_true.mp hfall)
      rw [if_pos (by simp; intro x hx he; exact hf (he ▸ hx))]

theorem splitNetloc_append_hash (r frag : Str) :
    splitNetloc (r ++ '#' :: frag) =
      ((splitNetloc r).1, (splitNetloc r).2 ++ '#' :: frag) := by
  match r with
  | [] =>
    simp only [splitNetloc, List.nil_append]
    rw [if_neg (by simp [List.take_succ_cons]), if_neg (by simp)]
    rfl
  | [a] =>
    simp only [splitNetloc, List.cons_append, List.nil_append]
    rw [if_neg (by simp [List.take_succ_cons]), if_neg (by simp)]
    rfl
  | a :: b :: t =>
    simp only [splitNetloc, List.cons_append, List.take_succ_cons,
      List.take_zero, List.drop_succ_cons, List.drop_zero]
    by_cases hab : ([a, b] : Str) = ['/', '/']
    · rw [if_pos hab, if_pos hab,
        takeWhile_append_cons_stop _ _ _ _ (by decide),
        dropWhile_append_cons_stop _ _ _ _ (by decide)]
    · rw [if_neg hab, if_neg hab]
      rfl

theorem urlsplit_append_hash (url frag : Str) :
    urlsplitSchemeAndPath (url ++ '#' :: frag) = urlsplitSchemeAndPath url := by
  simp only [urlsplitSchemeAndPath]
  rw [splitScheme_append_hash, splitNetloc_append_hash,
    takeWhile_append_cons_stop _ _ _ _ (by decide)]

theorem extract_filename_append_hash (url frag : Str) :
    extract_filename (url ++ '#' :: frag) = extract_filename url := by
  simp only [extract_filename, urlparsePath]
  rw [urlsplit_append_hash]

theorem splitChar_ne_nil (c : Char) : ∀ s : Str, splitChar c s ≠ [] := by
  intro s
  induction s with
  | nil => simp [splitChar]
  | cons x xs ih =>
    simp only [splitChar]
    split
    · simp
    · split
      · simp
      · simp

theorem getLastD_of_ne_nil {α : Type} (l : List α) (h : l ≠ []) (d : α) :
    l.getLastD d = l.getLast h := by
  conv_lhs => rw [← List.dropLast_append_getLast h]
  rw [List.getLastD_concat]

theorem filter_getLastD {α : Type} (p : α → Bool) (l : List α) (h : l ≠ [])
    (hp : p (l.getLast h) = true) (d : α) :
    (l.filter p).getLastD d = l.getLast h := by
  conv_lhs => rw [← List.dropLast_append_getLast h]
  rw [List.filter_append, List.filter_singleton, hp]
  simp only [cond_true]
  rw [List.getLastD_concat]

theorem pathName_eq_lastSegment (p : Str) (h1 : lastSegment p ≠ [])
    (h2 : lastSegment p ≠ ['.']) : pathName p = lastSegment p := by
  have hne : splitChar '/' p ≠ [] := splitChar_ne_nil '/' p
  have hlast : lastSegment p = (splitChar '/' p).getLast hne :=
    getLastD_of_ne_nil _ hne []
  unfold pathName
  rw [hlast]
  refine filter_getLastD _ _ hne ?_ []
  rw [← hlast]
  exact decide_eq_true ⟨h1, h2⟩

theorem mem_of_mem_splitparams {p : Str} {x : Char}
    (h : x ∈ splitparamsPath p) : x ∈ p := by
  simp only [splitparamsPath] at h
  split at h
  · split at h
    · rcases List.mem_append.mp h with h' | h'
      · exact List.take_subset _ _ h'
      · have h2 := List.takeWhile_subset _ h'
        have h3 := List.takeWhile_subset _ (List.mem_reverse.mp h2)
        exact List.mem_reverse.mp h3
    · exact h
  · exact List.takeWhile_subset _ h

theorem hash_not_mem_urlsplit_path (url : Str) :
    '#' ∉ (urlsplitSchemeAndPath url).2 := by
  simp only [urlsplitSchemeAndPath]
  intro h
  have h1 := List.takeWhile_subset _ h
  have h2 := List.mem_takeWhile_imp h1
  simp at h2

theorem hash_not_mem_urlparsePath (url : Str) : '#' ∉ urlparsePath url := by
  simp only [urlparsePath]
  intro h
  split at h
  · exact hash_not_mem_urlsplit_path url (mem_of_mem_splitparams h)
  · exact hash_not_mem_urlsplit_path url h

theorem extract_filename_eq_pathName (url : Str) :
    extract_filename url = pathName (urlparsePath url) := by
  simp only [extract_filename]
  have ht : (urlparsePath url).takeWhile (fun c => decide (c ≠ '#')) =
      urlparsePath url := by
    rw [List.takeWhile_eq_self_iff]
    intro x hx
    have hxne : x ≠ '#' := fun he => hash_not_mem_urlparsePath url (he ▸ hx)
    simpa using hxne
  rw [ht]

-- ### Claim theorems for `extract_filename`

/-- C4 (corrected): the claim as frozen fails when the final path segment is
`"."`: for `"http://h/a/."` the path is `"/a/."`, whose final segment is the
non-empty string `"."`, but `pathlib` drops `"."` components, so
`extract_filename` returns `"a"`. -/
theorem claim_C4_counterexample :
    lastSegment (urlparsePath "http://h/a/.".toList) ≠ [] ∧
    extract_filename "http://h/a/.".toList ≠
      lastSegment (urlparsePath "http://h/a/.".toList) := by
  decide

/-- C4 (amended): for every URL whose parsed path has a non-empty final
segment other than `"."`, `extract_filename` returns exactly that final
segment — the text after the last `'/'` — and for every URL the result is
unchanged by appending a `'#'`-fragment. -/
theorem claim_C4 (url : Str) :
    (lastSegment (urlparsePath url) ≠ [] →
      lastSegment (urlparsePath url) ≠ ['.'] →
      extract_filename url = lastSegment (urlparsePath url)) ∧
    ∀ frag, extract_filename (url ++ '#' :: frag) = extract_filename url := by
  constructor
  · intro h1 h2
    rw [extract_filename_eq_pathName]
    exact pathName_eq_lastSegment _ h1 h2
  · intro frag
    exact extract_filename_append_hash url frag

/-- Witness for C4 at a plain XML URL, with and without a line fragment. -/
theorem claim_C4_witness :
    lastSegment (urlparsePath "http://h/a/b.xml".toList) ≠ [] ∧
    extract_filename "http://h/a/b.xml".toList =
      lastSegment (urlparsePath "http://h/a/b.xml".toList) ∧
    extract_filename ("http://h/a/b.xml".toList ++ '#' :: "L4".toList) =
      extract_filename "http://h/a/b.xml".toList :=
  ⟨by decide, (claim_C4 _).1 (by decide) (by decide),
    (claim_C4 _).2 "L4".toList⟩
